import Mathlib

/-!
Verification of the MktDataAggregator core: a shallow embedding of the
memory-mapped line reader/writer (`src/Mmf.cpp`), the MPSC barrier queue
(`MPSCQueue`), the hour extraction (`sp::MktData::GetHourFromTimestamp`)
and the per-file reader loop (`ChunkedFileReader::Run`).

Modelling conventions:
* The backing file is a pair `fileLen : Nat` (current on-disk length) and
  `fileData : Nat → Char` (byte content at each index; only indices below
  `fileLen` are ever meaningful).  A byte is modelled as `Char`.
* OS calls (`open`, `fstat`, `mmap`, `ftruncate`, `msync`) are assumed to
  succeed; the error paths that depend purely on program state
  (`InvalidOffset`, `NotMapped`, `EndOfFile`, `WriteError`) are modelled
  exactly as in the source.
* `mapped_ptr_` is abstracted by `Ptr`: `mapFailed` models `MAP_FAILED`,
  `nullp` models `nullptr` (the unmapped empty-file case), `real` models a
  live mapping.  The bytes visible through a live mapping at mapping index
  `i` are `fileData (off + i)`.
* The page size returned by `sysconf(_SC_PAGE_SIZE)` is the `page_size`
  field of the state.
-/

namespace MktAgg

/-- `MMF::OpenMode` from `src/Mmf.hpp`. -/
inductive OpenMode where
  | ReadOnly
  | WriteOnly
  | ReadWrite
deriving DecidableEq, Repr

/-- `MMF::Error` from `src/Mmf.hpp`. -/
inductive Error where
  | None
  | FileOpenFailed
  | FileStatFailed
  | MapFailed
  | InvalidOffset
  | InvalidPosition
  | NotMapped
  | EndOfFile
  | WriteError
deriving DecidableEq, Repr

/-- Abstraction of the `mapped_ptr_` field: `MAP_FAILED`, `nullptr`, or a
live mapping. -/
inductive Ptr where
  | mapFailed
  | nullp
  | real
deriving DecidableEq, Repr

/-- The state of an `MMF` object together with its backing file.
Field names follow the C++ members (`file_size_`, `mapped_size_`,
`current_position_`, `offset_`, `is_valid_`, `last_error_`, `mode_`). -/
structure MMF where
  fileLen : Nat
  fileData : Nat → Char
  ptr : Ptr
  file_size : Nat
  mapped_size : Nat
  current_position : Nat
  off : Nat
  is_valid : Bool
  last_error : Error
  mode : OpenMode
  page_size : Nat

/-- `MMF::MMF(filename, mode)` (`src/Mmf.cpp:47-96`), the full-file
constructor, on the success path of the OS calls: `fstat` reports `len`,
write modes `ftruncate` an empty file to its own (zero) size, a nonempty
file is mapped in full, an empty file keeps `mapped_ptr_ = nullptr`. -/
def mmfOpenFull (len : Nat) (f : Nat → Char) (mode : OpenMode) (ps : Nat) : MMF :=
  if len = 0 then
    { fileLen := len, fileData := f, ptr := Ptr.nullp, file_size := 0,
      mapped_size := 0, current_position := 0, off := 0, is_valid := true,
      last_error := Error.None, mode := mode, page_size := ps }
  else
    { fileLen := len, fileData := f, ptr := Ptr.real, file_size := len,
      mapped_size := len, current_position := 0, off := 0, is_valid := true,
      last_error := Error.None, mode := mode, page_size := ps }

/-- `MMF::MMF(filename, offset, size, mode)` (`src/Mmf.cpp:98-165`), the
partial-range constructor, on the success path of the OS calls.
`offset >= file_size_` fails with `InvalidOffset`; otherwise the mapping
starts at the page-aligned offset `offset / ps * ps`, the usable size is
clamped to what the file still holds, and `current_position_` is advanced
by the alignment delta.  When the computed mapping size is zero the source
skips `mmap` (leaving `mapped_ptr_ = MAP_FAILED` and `offset_`
uninitialized, modelled as 0) yet still marks the object valid. -/
def mmfOpenPart (len : Nat) (f : Nat → Char) (offset size : Nat)
    (mode : OpenMode) (ps : Nat) : MMF :=
  if len ≤ offset then
    { fileLen := len, fileData := f, ptr := Ptr.mapFailed, file_size := len,
      mapped_size := 0, current_position := 0, off := 0, is_valid := false,
      last_error := Error.InvalidOffset, mode := mode, page_size := ps }
  else
    let aligned := offset / ps * ps
    let eff := min size (len - offset)
    let msize := (offset - aligned) + eff
    if 0 < msize then
      { fileLen := len, fileData := f, ptr := Ptr.real, file_size := len,
        mapped_size := msize, current_position := offset - aligned,
        off := aligned, is_valid := true, last_error := Error.None,
        mode := mode, page_size := ps }
    else
      { fileLen := len, fileData := f, ptr := Ptr.mapFailed, file_size := len,
        mapped_size := 0, current_position := 0, off := 0, is_valid := true,
        last_error := Error.None, mode := mode, page_size := ps }

/-- The move constructor's effect on the moved-from object
(`src/Mmf.cpp:171-189`): the disk file is untouched, the object keeps its
mode but loses its mapping and validity. -/
def movedFromMMF (s : MMF) : MMF :=
  { s with
    ptr := Ptr.mapFailed
    file_size := 0
    mapped_size := 0
    current_position := 0
    is_valid := false
    last_error := Error.None }

/-- The byte-scan loop of `GetNextLineBounds` (`src/Mmf.cpp:342-344`):
`while (line_end < mapped_size_ && data[line_end] != '\n') line_end++;`.
The extra fuel argument makes the recursion structural; fuel
`mapped_size - j` always suffices. -/
def scanEndAux (f : Nat → Char) (off msize : Nat) : Nat → Nat → Nat
  | 0, j => j
  | k + 1, j =>
    if j < msize then
      (if f (off + j) = '\n' then j else scanEndAux f off msize k (j + 1))
    else j

/-- Index of the first `'\n'` at or after `j` in the current mapping, or
`mapped_size` if none. -/
def scanEnd (s : MMF) (j : Nat) : Nat :=
  scanEndAux s.fileData s.off s.mapped_size (s.mapped_size - j) j

/-- The remap step of `GetNextLineBounds` (`src/Mmf.cpp:291-324`) on the
success path of `mmap`: advance to `offset_ + mapped_size_`, clamp the new
window to the remaining bytes, page-align via `GetAlignedOffsetAndSize`
(`src/Mmf.cpp:270-280`) and restart the position at the alignment delta. -/
def remapState (s : MMF) : MMF :=
  let next := s.off + s.mapped_size
  let remaining := s.file_size - next
  let mapSize := min s.mapped_size remaining
  let newOff := next / s.page_size * s.page_size
  { s with
    ptr := Ptr.real
    off := newOff
    mapped_size := (next - newOff) + mapSize
    current_position := next - newOff }

/-- The bounds computation after the end-of-window handling
(`src/Mmf.cpp:331-346`): an immediate `'\n'` yields the empty-line bounds
`(pos, pos)`, otherwise scan forward to the terminator or window end. -/
def scanBounds (s : MMF) : Option (Nat × Nat) × MMF :=
  if s.current_position < s.mapped_size ∧
      s.fileData (s.off + s.current_position) = '\n' then
    (some (s.current_position, s.current_position), s)
  else
    (some (s.current_position, scanEnd s s.current_position), s)

/-- `MMF::GetNextLineBounds(bool)` (`src/Mmf.cpp:282-347`), with `mmap`
assumed to succeed on remap. -/
def getNextLineBounds (ext : Bool) (s : MMF) : Option (Nat × Nat) × MMF :=
  if s.is_valid = false ∨ s.ptr = Ptr.nullp then
    (none, { s with last_error := Error.NotMapped })
  else if s.mapped_size ≤ s.current_position then
    if ext = true ∧ s.off + s.mapped_size < s.file_size then
      scanBounds (remapState s)
    else (none, { s with last_error := Error.EndOfFile })
  else scanBounds s

/-- The bytes `data[a..b)` of the current mapping expressed as absolute
file indices: `sliceFrom f a b` is `f a, f (a+1), …, f (b-1)`. -/
def sliceFrom (f : Nat → Char) (a b : Nat) : List Char :=
  (List.range (b - a)).map (fun k => f (a + k))

/-- The post-processing `MMF::ReadLine` performs on the bounds returned by
`GetNextLineBounds` (`src/Mmf.cpp:216-240`). -/
def lineFromBounds (r : Option (Nat × Nat) × MMF) : Option (List Char) × MMF :=
  match r with
  | (none, s1) => (none, s1)
  | (some b, s1) =>
    if b.2 < b.1 then (none, { s1 with last_error := Error.EndOfFile })
    else if b.1 = b.2 then
      (some [], { s1 with current_position := b.2 + 1, last_error := Error.None })
    else
      let line := sliceFrom s1.fileData (s1.off + b.1) (s1.off + b.2)
      let pos2 := if b.2 < s1.mapped_size ∧ s1.fileData (s1.off + b.2) = '\n'
                  then b.2 + 1 else b.2
      (some line, { s1 with current_position := pos2, last_error := Error.None })

/-- `MMF::ReadLine(bool p_extend_mapping)` (`src/Mmf.cpp:216-240`). -/
def readLine (ext : Bool) (s : MMF) : Option (List Char) × MMF :=
  lineFromBounds (getNextLineBounds ext s)

/-- `MMF::ReadLineView(bool)` (`src/Mmf.cpp:243-267`): identical logic to
`ReadLine` up to the owned-string / view distinction, which the model
erases (both return the byte list of the line). -/
def readLineView (ext : Bool) (s : MMF) : Option (List Char) × MMF :=
  lineFromBounds (getNextLineBounds ext s)

/-- Repeated `ReadLine` until it yields no line, collecting the lines in
order (fuel-bounded). -/
def readAllS (ext : Bool) : Nat → MMF → List (List Char) × MMF
  | 0, s => ([], s)
  | fuel + 1, s =>
    match readLine ext s with
    | (none, s1) => ([], s1)
    | (some l, s1) =>
      let r := readAllS ext fuel s1
      (l :: r.1, r.2)

/-- `MMF::Reset` (`src/Mmf.cpp:423-431`). -/
def resetM (s : MMF) : Error × MMF :=
  if s.is_valid = false then (Error.NotMapped, { s with last_error := Error.NotMapped })
  else (Error.None, { s with current_position := 0, last_error := Error.None })

/-- `MMF::SetPosition` (`src/Mmf.cpp:433-445`). -/
def setPosition (p : Nat) (s : MMF) : Error × MMF :=
  if s.is_valid = false then (Error.NotMapped, { s with last_error := Error.NotMapped })
  else if s.mapped_size < p then
    (Error.InvalidPosition, { s with last_error := Error.InvalidPosition })
  else (Error.None, { s with current_position := p, last_error := Error.None })

/-- `MMF::GetCurrentPosition` (`src/Mmf.hpp:408-411`). -/
def getCurrentPosition (s : MMF) : Option Nat :=
  if s.is_valid = true then some s.current_position else none

/-- `MMF::GetMappedSize` (`src/Mmf.hpp:427-429`). -/
def getMappedSize (s : MMF) : Option Nat :=
  if s.is_valid = true then some s.mapped_size else none

/-- `MMF::GetFileSize` (`src/Mmf.hpp:431-433`). -/
def getFileSize (s : MMF) : Option Nat :=
  if s.is_valid = true then some s.file_size else none

/-- `MMF::GetData` (`src/Mmf.hpp:441-444`). -/
def getData (s : MMF) : Option Ptr :=
  if s.is_valid = true ∧ s.ptr ≠ Ptr.nullp then some s.ptr else none

/-- `MMF::IsEOF` (`src/Mmf.hpp:437-439`). -/
def isEOF (s : MMF) : Bool :=
  s.is_valid = false ∨ s.mapped_size ≤ s.current_position

/-- Invariant of a valid read state over a live mapping: the position
stays inside the mapping, the mapping stays inside the file, and the
mapping is nonempty.  Holds for the states produced by the constructors
on nonempty files and is preserved by `ReadLine`. -/
def InvR (s : MMF) : Prop :=
  s.is_valid = true ∧ s.ptr = Ptr.real ∧
  s.current_position ≤ s.mapped_size ∧
  s.off + s.mapped_size ≤ s.file_size ∧ 1 ≤ s.mapped_size

/-- The zero byte POSIX `ftruncate` fills extensions with. -/
def charZero : Char := Char.ofNat 0

/-- `ftruncate(fd, n)` on the backing file: extensions are zero-filled,
shrinking discards the tail. -/
def ftruncS (n : Nat) (s : MMF) : MMF :=
  { s with
    fileLen := n
    fileData := fun i => if i < s.fileLen ∧ i < n then s.fileData i else charZero }

/-- The doubling loop of `MMF::WriteLine` (`src/Mmf.cpp:386-388`):
`while (current_position_ + write_size + 1 > new_size) new_size *= 2;`.
Fuel-bounded to keep the recursion structural; fuel `target` suffices
whenever `1 ≤ n` (`n` grows by at least one per iteration). -/
def growSizeAux : Nat → Nat → Nat → Nat
  | 0, _, n => n
  | k + 1, target, n => if n < target then growSizeAux k target (2 * n) else n

/-- `new_size` after the doubling loop, starting from `n`. -/
def growSize (target n : Nat) : Nat := growSizeAux target target n

/-- `MMF::WriteLine(const std::string&)` (`src/Mmf.cpp:350-421`) on the
success path of `ftruncate`/`mmap`/`msync`.  The write mapping always
starts at file offset 0 (both the initial mapping and the remap pass
offset 0 to `mmap`), so mapping index `i` is file index `i`. -/
def writeLine (text : List Char) (s : MMF) : Error × MMF :=
  if s.is_valid = false ∨ s.ptr = Ptr.mapFailed then (Error.NotMapped, s)
  else if s.mode = OpenMode.ReadOnly then (Error.WriteError, s)
  else if text.length = 0 then (Error.WriteError, s)
  else
    let ws := text.length
    -- empty file: create the first mapping, sized to the line plus terminator
    let s1 := if s.ptr = Ptr.nullp then
        { ftruncS (ws + 1) s with mapped_size := ws + 1, ptr := Ptr.real }
      else s
    -- overflow: grow the file geometrically and remap
    let s2 := if s1.mapped_size < s1.current_position + ws + 1 then
        let start := if s1.mapped_size * 2 = 0 then ws + 1 else s1.mapped_size * 2
        let ns := growSize (s1.current_position + ws + 1) start
        { ftruncS ns s1 with mapped_size := ns, ptr := Ptr.real }
      else s1
    -- memcpy the line at the current position and append the terminator
    let g := fun i =>
      if s2.current_position ≤ i ∧ i < s2.current_position + ws then
        text.getD (i - s2.current_position) charZero
      else if i = s2.current_position + ws then '\n'
      else s2.fileData i
    (Error.None,
      { s2 with fileData := g, current_position := s2.current_position + ws + 1 })

/-! ## Barrier queue (`src/unnamed/part_000`, `sp::MPSCQueue`)

Only the epoch-barrier counters are modelled; the record channel itself
(`queue_`, `cache_`, the mutex and condition variable) does not enter the
claims. -/

/-- The expected producer count `total_files_` (`src/unnamed/part_000:126-127`). -/
def total_files_ : Nat := 10000

/-- The barrier-relevant state of `sp::MPSCQueue`: the atomic
`done_file_count_`, zero-initialized. -/
structure MPSCQueueSt where
  done_file_count : Nat
deriving DecidableEq, Repr

/-- A freshly constructed queue (`done_file_count_` value-initialized to 0). -/
def mkQueue : MPSCQueueSt := { done_file_count := 0 }

/-- `MPSCQueue::ProducerDone` (`src/unnamed/part_000:100-103`). -/
def ProducerDone (q : MPSCQueueSt) : MPSCQueueSt :=
  { q with done_file_count := q.done_file_count + 1 }

/-- `MPSCQueue::IsDone` (`src/unnamed/part_000:106-108`). -/
def IsDone (q : MPSCQueueSt) : Bool :=
  total_files_ ≤ q.done_file_count

/-- `MPSCQueue::ResetDoneFileCount` (`src/unnamed/part_000:110-113`). -/
def ResetDoneFileCount (q : MPSCQueueSt) : MPSCQueueSt :=
  { q with done_file_count := 0 }

/-! ## Hour extraction and the per-file reader loop
(`sp::MktData::GetHourFromTimestamp`, `ChunkedFileReader::Run`,
`src/gtest/mpsc_queue_test.cpp:85-88` and `src/unnamed/part_004:43-84`). -/

/-- `std::stoul` on a short string: fails (throws) when the first
character is not a decimal digit, otherwise parses the maximal leading
digit run.  `none` models the thrown `std::invalid_argument`. -/
def stoulOf (cs : List Char) : Option Nat :=
  match cs with
  | [] => none
  | c :: _ =>
    if c.isDigit then
      some ((cs.takeWhile Char.isDigit).foldl (fun a d => 10 * a + (d.toNat - 48)) 0)
    else none

/-- `sp::MktData::GetHourFromTimestamp` (`src/gtest/mpsc_queue_test.cpp:85-88`):
inputs shorter than 19 characters yield 0, otherwise `stoul` of
`substr(11, 2)`. -/
def GetHourFromTimestamp (ts : List Char) : Option Nat :=
  if ts.length < 19 then some 0
  else stoulOf ((ts.drop 11).take 2)

/-- One iteration of the loop body of `ChunkedFileReader::Run`
(`src/unnamed/part_004:57-83`) as far as the epoch barrier is concerned:
given the running bucket `prev_hour_` and the line just read, returns the
new `prev_hour_` and whether `queue_.ProducerDone()` was called.  Empty
and oversize lines are skipped; a line whose hour extraction throws
(`none`) aborts the program and is modelled as a skip. -/
def runStep (chunkSize prev : Nat) (line : List Char) : Nat × Bool :=
  if line.length = 0 then (prev, false)
  else if chunkSize < line.length then (prev, false)
  else
    match GetHourFromTimestamp line with
    | none => (prev, false)
    | some hour =>
      let prev1 := if prev = 0 then hour else prev
      if hour ≠ prev1 then (hour, true) else (prev1, false)

/-- The `Run` loop over a list of lines: final `prev_hour_` and the number
of `ProducerDone` calls (barrier activations). -/
def runLines (chunkSize : Nat) : Nat → List (List Char) → Nat × Nat
  | prev, [] => (prev, 0)
  | prev, l :: ls =>
    let st := runStep chunkSize prev l
    let r := runLines chunkSize st.1 ls
    (r.1, (if st.2 then 1 else 0) + r.2)

/-- `ChunkedFileReader::GetDefaultChunkSize` (`src/unnamed/part_004:88-91`),
parametrized by the value `max_mem` returned by
`sp::GetMaxMemoryPerThread` (`src/utils.hpp:36-41`, an OS probe). -/
def GetDefaultChunkSize (max_mem : Nat) : Nat :=
  if 1024 * 1024 < max_mem then max_mem - 1024 * 1024 else max_mem

/-- Modelled from the spec: the claimed default-chunk formula
`defaultChunk = perThreadMemoryBudget - fixedReserve`, applied whenever
subtracting the reserve "would not go below zero" (budget at least the
reserve), with the floor at the budget otherwise. -/
def claimedDefaultChunk (b : Nat) : Nat :=
  if 1024 * 1024 ≤ b then b - 1024 * 1024 else b

/-! ## Concrete states used by counterexamples and witnesses -/

/-- The file `"AB\n"`. -/
def exF : Nat → Char := fun i => if i = 0 then 'A' else if i = 1 then 'B' else '\n'

/-- A failed partial-range open (`offset 5` into a 2-byte file):
`IsValid() = false`, `GetLastError() = InvalidOffset`. -/
def invalidS : MMF := mmfOpenPart 2 (fun _ => 'a') 5 4 OpenMode.ReadWrite 4096

/-- A moved-from object over a small read-only file. -/
def deadS : MMF := movedFromMMF (mmfOpenFull 3 (fun _ => 'b') OpenMode.ReadOnly 4096)

/-- A writable fully-mapped window of size 4 with cursor at 3 (one byte of
free space), as produced by writes into a `ReadWrite` mapping. -/
def wbase : MMF :=
  { fileLen := 4, fileData := fun _ => 'a', ptr := Ptr.real, file_size := 4,
    mapped_size := 4, current_position := 3, off := 0, is_valid := true,
    last_error := Error.None, mode := OpenMode.ReadWrite, page_size := 4096 }

/-! ## Claim C2: the epoch barrier counter -/

lemma iterate_ProducerDone (k : Nat) (q : MPSCQueueSt) :
    (ProducerDone^[k] q).done_file_count = q.done_file_count + k := by
  induction k with
  | zero => rfl
  | succ n ih =>
    rw [Function.iterate_succ_apply', ProducerDone]
    simp [ih]
    omega

/-- C2: with `P = total_files_` (the queue's expected producer count),
`IsDone` is false after any `k < P` calls to `ProducerDone` from a fresh
queue, becomes true exactly after the `P`-th call, and immediately after
`ResetDoneFileCount` the done counter is zero and `IsDone` is false. -/
theorem c2_epoch_barrier (k : Nat) (hk : k < total_files_) :
    IsDone (ProducerDone^[k] mkQueue) = false ∧
    IsDone (ProducerDone^[total_files_] mkQueue) = true ∧
    ∀ q : MPSCQueueSt,
      (ResetDoneFileCount q).done_file_count = 0 ∧
      IsDone (ResetDoneFileCount q) = false := by
  refine ⟨?_, ?_, fun q => ⟨rfl, ?_⟩⟩
  · simp only [IsDone, decide_eq_false_iff_not, Nat.not_le]
    rw [iterate_ProducerDone]
    simpa [mkQueue] using hk
  · simp only [IsDone, decide_eq_true_eq]
    rw [iterate_ProducerDone]
    simp [mkQueue]
  · simp [IsDone, ResetDoneFileCount, total_files_]

theorem c2_epoch_barrier_witness :
    3 < total_files_ ∧ IsDone (ProducerDone^[3] mkQueue) = false :=
  ⟨by decide, (c2_epoch_barrier 3 (by decide)).1⟩

/-! ## Claim C3: `WriteLine` failure modes -/

/-- C3 counterexample: on an invalid object (here: a partial-range open
that failed with `InvalidOffset`), `WriteLine` returns `NotMapped`, not
`WriteError` as the claim states. -/
theorem c3_writeline_invalid_cex :
    (writeLine ['x'] invalidS).1 = Error.NotMapped ∧
    Error.NotMapped ≠ Error.WriteError := by
  constructor
  · rfl
  · decide

/-- C3 amended: `WriteLine` fails with the whole state (file contents and
cursor included) unchanged whenever the object is invalid or unmapped
(`MAP_FAILED`), the mode is read-only, or the text is empty — but the
error is `WriteError` only in the latter two cases; an invalid or
`MAP_FAILED` object yields `NotMapped` instead. -/
theorem c3_writeline_failure_modes (s : MMF) (text : List Char)
    (h : s.is_valid = false ∨ s.ptr = Ptr.mapFailed ∨
         s.mode = OpenMode.ReadOnly ∨ text = []) :
    writeLine text s =
      ((if s.is_valid = false ∨ s.ptr = Ptr.mapFailed then Error.NotMapped
        else Error.WriteError), s) := by
  by_cases h1 : s.is_valid = false ∨ s.ptr = Ptr.mapFailed
  · rw [if_pos h1]
    unfold writeLine
    rw [if_pos h1]
  · rw [if_neg h1]
    unfold writeLine
    rw [if_neg h1]
    rcases h with h | h | h | h
    · exact absurd (Or.inl h) h1
    · exact absurd (Or.inr h) h1
    · rw [if_pos h]
    · by_cases hro : s.mode = OpenMode.ReadOnly
      · rw [if_pos hro]
      · rw [if_neg hro, if_pos (by simp [h])]

theorem c3_writeline_failure_modes_witness :
    writeLine ['x'] (mmfOpenFull 3 (fun _ => 'a') OpenMode.ReadOnly 4096) =
      (Error.WriteError, mmfOpenFull 3 (fun _ => 'a') OpenMode.ReadOnly 4096) := by
  have h := c3_writeline_failure_modes
    (mmfOpenFull 3 (fun _ => 'a') OpenMode.ReadOnly 4096) ['x']
    (Or.inr (Or.inr (Or.inl rfl)))
  simpa using h

/-! ## Claim C6: partial-range open validity; empty-file full open -/

/-- C6: a read-mode partial-range open (success path of the OS calls)
fails with `IsValid() = false` and `GetLastError() = InvalidOffset`
exactly when `offset ≥ file length`; and a full open of a zero-length
file yields a valid object that is immediately at end-of-stream for
reads (`IsEOF` true, `ReadLine` yields no line). -/
theorem c6_invalid_offset_and_empty_file (len offset size ps : Nat) (f : Nat → Char) :
    (((mmfOpenPart len f offset size OpenMode.ReadOnly ps).is_valid = false ∧
      (mmfOpenPart len f offset size OpenMode.ReadOnly ps).last_error =
        Error.InvalidOffset) ↔ len ≤ offset) ∧
    (mmfOpenFull 0 f OpenMode.ReadOnly ps).is_valid = true ∧
    (∀ ext, (readLine ext (mmfOpenFull 0 f OpenMode.ReadOnly ps)).1 = none) ∧
    isEOF (mmfOpenFull 0 f OpenMode.ReadOnly ps) = true := by
  refine ⟨?_, rfl, fun ext => rfl, rfl⟩
  by_cases h : len ≤ offset
  · simp [mmfOpenPart, h]
  · rw [mmfOpenPart, if_neg h]
    simp only [h, iff_false]
    split
    · simp
    · simp

/-! ## Claim C7: empty line at the cursor; the `"\n\n"` scenario -/

/-- C7: a `ReadLine` whose cursor sits on a `'\n'` inside the current
mapping returns the zero-length line and advances the position by exactly
one; and on the file `"\n\n"`, two `ReadLine` calls return `""` and the
third fails with `EndOfFile`. -/
theorem c7_empty_line_consumes_terminator (s : MMF) (ext : Bool)
    (h1 : s.is_valid = true) (h2 : s.ptr ≠ Ptr.nullp)
    (h3 : s.current_position < s.mapped_size)
    (h4 : s.fileData (s.off + s.current_position) = '\n') :
    readLine ext s = (some [],
      { s with current_position := s.current_position + 1,
               last_error := Error.None }) ∧
    (readAllS ext 3 (mmfOpenFull 2 (fun _ => '\n') OpenMode.ReadOnly 4096)).1 =
      [[], []] ∧
    (readAllS ext 3 (mmfOpenFull 2 (fun _ => '\n')
        OpenMode.ReadOnly 4096)).2.last_error = Error.EndOfFile := by
  refine ⟨?_, ?_, ?_⟩
  · rw [readLine, getNextLineBounds, if_neg (by simp [h1, h2]),
      if_neg (by simpa using Nat.not_le.mpr h3)]
    rw [scanBounds, if_pos ⟨h3, h4⟩]
    rw [lineFromBounds]
    simp
  · cases ext <;> decide
  · cases ext <;> decide

theorem c7_empty_line_consumes_terminator_witness :
    readLine true (mmfOpenFull 2 (fun _ => '\n') OpenMode.ReadOnly 4096) =
      (some [], { mmfOpenFull 2 (fun _ => '\n') OpenMode.ReadOnly 4096 with
                  current_position := 0 + 1, last_error := Error.None }) := by
  have h := c7_empty_line_consumes_terminator
    (mmfOpenFull 2 (fun _ => '\n') OpenMode.ReadOnly 4096) true
    rfl (by decide) (by decide) rfl
  exact h.1

/-! ## Claim C8: default chunk size -/

/-- C8 counterexample: at the boundary budget `B = 1 MiB`, the code
returns `B` itself while the claim's formula ("subtract the reserve
whenever that would not go below zero") yields 0. -/
theorem c8_boundary_cex :
    GetDefaultChunkSize (1024 * 1024) = 1024 * 1024 ∧
    claimedDefaultChunk (1024 * 1024) = 0 ∧
    GetDefaultChunkSize (1024 * 1024) ≠ claimedDefaultChunk (1024 * 1024) := by
  decide

/-- C8 amended: the default chunk size is `B - 1 MiB` when `B` is
strictly greater than 1 MiB and `B` itself otherwise; this matches the
claimed formula at every budget except exactly `B = 1 MiB`, where the
code keeps `B` rather than taking `B - reserve = 0`. -/
theorem c8_default_chunk_amended (b : Nat) (h : b ≠ 1024 * 1024) :
    GetDefaultChunkSize b = claimedDefaultChunk b ∧
    (1024 * 1024 < b → GetDefaultChunkSize b = b - 1024 * 1024) ∧
    (b ≤ 1024 * 1024 → GetDefaultChunkSize b = b) := by
  unfold GetDefaultChunkSize claimedDefaultChunk
  refine ⟨?_, ?_, ?_⟩ <;> split <;> (try split) <;> omega

theorem c8_default_chunk_amended_witness :
    GetDefaultChunkSize (2 * 1024 * 1024) = claimedDefaultChunk (2 * 1024 * 1024) ∧
    (1024 * 1024 < 2 * 1024 * 1024 →
      GetDefaultChunkSize (2 * 1024 * 1024) = 2 * 1024 * 1024 - 1024 * 1024) ∧
    (2 * 1024 * 1024 ≤ 1024 * 1024 →
      GetDefaultChunkSize (2 * 1024 * 1024) = 2 * 1024 * 1024) :=
  c8_default_chunk_amended (2 * 1024 * 1024) (by decide)

/-! ## Claim C9: invalid objects are inert -/

/-- C9: an invalid `MMF` object is inert: reads yield no value and set
`NotMapped`, `Reset`/`SetPosition`/`WriteLine` return `NotMapped`, the
accessors return the empty optional, nothing but the `last_error_` field
ever changes (`WriteLine` changes nothing at all), and no operation
restores validity. -/
theorem c9_invalid_inert (s : MMF) (ext : Bool) (p : Nat) (text : List Char)
    (h : s.is_valid = false) :
    readLine ext s = (none, { s with last_error := Error.NotMapped }) ∧
    readLineView ext s = (none, { s with last_error := Error.NotMapped }) ∧
    resetM s = (Error.NotMapped, { s with last_error := Error.NotMapped }) ∧
    setPosition p s = (Error.NotMapped, { s with last_error := Error.NotMapped }) ∧
    writeLine text s = (Error.NotMapped, s) ∧
    getCurrentPosition s = none ∧
    getMappedSize s = none ∧
    getFileSize s = none ∧
    getData s = none ∧
    (readLine ext s).2.is_valid = false ∧
    (resetM s).2.is_valid = false ∧
    (setPosition p s).2.is_valid = false ∧
    (writeLine text s).2.is_valid = false := by
  refine ⟨?_, ?_, ?_, ?_, ?_, ?_, ?_, ?_, ?_, ?_, ?_, ?_, ?_⟩ <;>
    simp [readLine, readLineView, getNextLineBounds, lineFromBounds, resetM,
      setPosition, writeLine, getCurrentPosition, getMappedSize, getFileSize,
      getData, h]

theorem c9_invalid_inert_witness :
    readLine true deadS = (none, { deadS with last_error := Error.NotMapped }) ∧
    readLineView true deadS = (none, { deadS with last_error := Error.NotMapped }) ∧
    resetM deadS = (Error.NotMapped, { deadS with last_error := Error.NotMapped }) ∧
    setPosition 2 deadS = (Error.NotMapped, { deadS with last_error := Error.NotMapped }) ∧
    writeLine ['x'] deadS = (Error.NotMapped, deadS) ∧
    getCurrentPosition deadS = none ∧
    getMappedSize deadS = none ∧
    getFileSize deadS = none ∧
    getData deadS = none ∧
    (readLine true deadS).2.is_valid = false ∧
    (resetM deadS).2.is_valid = false ∧
    (setPosition 2 deadS).2.is_valid = false ∧
    (writeLine ['x'] deadS).2.is_valid = false :=
  c9_invalid_inert deadS true 2 ['x'] rfl

/-! ## Claim C10: hour extraction and the epoch barrier trigger -/

/-- C10 counterexample: after a line of hour 07 has been adopted as the
running bucket, the malformed (3-character) line `"bad"` extracts hour 0
and **does** trigger the epoch barrier (`ProducerDone`), contradicting
the claim that a short line never triggers it. -/
theorem c10_short_line_triggers_cex :
    runLines 100 0 ["2021-03-05 07:00:00.123".toList, "bad".toList] = (0, 1) ∧
    (runStep 100 7 "bad".toList).2 = true := by
  decide

/-- C10 amended: inputs shorter than 19 characters extract hour 0, inputs
with decimal digits at positions 11–12 extract their two-digit value, and
a short (or hour-00) line never triggers the epoch barrier **while no
bucket has been adopted** (`prev_hour_ = 0`); once a nonzero bucket is
running, a line extracting hour 0 does trigger the barrier. -/
theorem c10_hour_extraction_amended :
    (∀ ts : List Char, ts.length < 19 → GetHourFromTimestamp ts = some 0) ∧
    (∀ (p : List Char) (a b : Char) (q : List Char),
        p.length = 11 → 6 ≤ q.length → a.isDigit = true → b.isDigit = true →
        GetHourFromTimestamp (p ++ a :: b :: q) =
          some (10 * (a.toNat - 48) + (b.toNat - 48))) ∧
    (∀ chunkSize line, (runStep chunkSize 0 line).2 = false) := by
  refine ⟨?_, ?_, ?_⟩
  · intro ts h
    simp [GetHourFromTimestamp, h]
  · intro p a b q hp hq ha hb
    have hlen : ¬ (p ++ a :: b :: q).length < 19 := by
      simp [List.length_append, hp]
      omega
    have hdrop : (p ++ a :: b :: q).drop 11 = a :: b :: q := by
      rw [← hp]
      exact List.drop_left p _
    rw [GetHourFromTimestamp, if_neg hlen, hdrop]
    simp only [List.take, stoulOf, ha, if_pos]
    rw [List.takeWhile_cons, if_pos ha, List.takeWhile_cons, if_pos hb]
    simp [List.takeWhile]
  · intro chunkSize line
    by_cases h0 : line.length = 0
    · simp [runStep, h0]
    · by_cases hc : chunkSize < line.length
      · simp [runStep, h0, hc]
      · rcases hgh : GetHourFromTimestamp line with _ | hour
        · simp [runStep, h0, hc, hgh]
        · simp [runStep, h0, hc, hgh]

theorem c10_hour_extraction_amended_witness :
    GetHourFromTimestamp "bad".toList = some 0 ∧
    GetHourFromTimestamp ("2021-03-05 ".toList ++ '2' :: '3' :: ":59:59.000".toList) =
      some (10 * ('2'.toNat - 48) + ('3'.toNat - 48)) ∧
    (runStep 50 0 "bad".toList).2 = false :=
  ⟨c10_hour_extraction_amended.1 _ (by decide),
   c10_hour_extraction_amended.2.1 "2021-03-05 ".toList '2' '3' ":59:59.000".toList
     (by decide) (by decide) (by decide) (by decide),
   c10_hour_extraction_amended.2.2 50 _⟩

/-! ## Claim C5: geometric growth of the write mapping -/

lemma growSizeAux_spec (k : Nat) :
    ∀ n target : Nat, 1 ≤ n → target ≤ n + k →
      ∃ j, growSizeAux k target n = n * 2 ^ j ∧ target ≤ n * 2 ^ j ∧
        ∀ i, i < j → n * 2 ^ i < target := by
  induction k with
  | zero =>
    intro n target hn hfit
    refine ⟨0, by simp [growSizeAux], by simpa using hfit, by omega⟩
  | succ m ih =>
    intro n target hn hfit
    rw [growSizeAux]
    by_cases hlt : n < target
    · rw [if_pos hlt]
      obtain ⟨j, hj1, hj2, hj3⟩ := ih (2 * n) target (by omega) (by omega)
      refine ⟨j + 1, ?_, ?_, ?_⟩
      · rw [hj1, pow_succ]
        ring
      · calc target ≤ 2 * n * 2 ^ j := hj2
          _ = n * 2 ^ (j + 1) := by rw [pow_succ]; ring
      · intro i hi
        match i with
        | 0 => simpa using hlt
        | i' + 1 =>
          have := hj3 i' (by omega)
          calc n * 2 ^ (i' + 1) = 2 * n * 2 ^ i' := by rw [pow_succ]; ring
            _ < target := this
    · rw [if_neg hlt]
      refine ⟨0, by simp, by omega, by omega⟩

/-- C5: when a `WriteLine` on a valid writable mapping of size `S` at
position `p` would overflow (`p + len(text) + 1 > S`), the write succeeds
after growing the mapping (and the file, via `ftruncate`) to
`S * 2 ^ k` for the least `k ≥ 1` making the line fit, and every byte
before position `p` is unchanged. -/
theorem c5_writeline_geometric_growth (s : MMF) (text : List Char)
    (hv : s.is_valid = true) (hp : s.ptr = Ptr.real)
    (hm : s.mode ≠ OpenMode.ReadOnly) (ht : text ≠ [])
    (hms : 1 ≤ s.mapped_size) (hfl : s.fileLen = s.mapped_size)
    (hpos : s.current_position ≤ s.mapped_size)
    (hover : s.mapped_size < s.current_position + text.length + 1) :
    (writeLine text s).1 = Error.None ∧
    (∃ k, 1 ≤ k ∧
      (writeLine text s).2.mapped_size = s.mapped_size * 2 ^ k ∧
      s.current_position + text.length + 1 ≤ s.mapped_size * 2 ^ k ∧
      ∀ j, 1 ≤ j → j < k →
        s.mapped_size * 2 ^ j < s.current_position + text.length + 1) ∧
    (writeLine text s).2.fileLen = (writeLine text s).2.mapped_size ∧
    (∀ i, i < s.current_position → (writeLine text s).2.fileData i = s.fileData i) := by
  have hlen : text.length ≠ 0 := by simpa using ht
  have hnotnull : ¬ s.ptr = Ptr.nullp := by rw [hp]; exact fun h => Ptr.noConfusion h
  have hne2 : ¬ s.mapped_size * 2 = 0 := by omega
  obtain ⟨j, hg1, hg2, hg3⟩ :=
    growSizeAux_spec (s.current_position + text.length + 1)
      (s.mapped_size * 2) (s.current_position + text.length + 1)
      (by omega) (by omega)
  have hk1 : s.mapped_size * 2 * 2 ^ j = s.mapped_size * 2 ^ (j + 1) := by
    rw [pow_succ]; ring
  have hw : writeLine text s =
      (Error.None,
        { ftruncS (growSize (s.current_position + text.length + 1)
              (s.mapped_size * 2)) s with
          mapped_size := growSize (s.current_position + text.length + 1)
            (s.mapped_size * 2)
          ptr := Ptr.real
          fileData := fun i =>
            if s.current_position ≤ i ∧ i < s.current_position + text.length then
              text.getD (i - s.current_position) charZero
            else if i = s.current_position + text.length then '\n'
            else (ftruncS (growSize (s.current_position + text.length + 1)
                (s.mapped_size * 2)) s).fileData i
          current_position := s.current_position + text.length + 1 }) := by
    rw [writeLine, if_neg (by simp [hv, hp]), if_neg hm, if_neg hlen]
    simp only [if_neg hnotnull, if_pos hover, if_neg hne2, ftruncS]
  rw [hw]
  refine ⟨rfl, ⟨j + 1, by omega, ?_, ?_, ?_⟩, rfl, ?_⟩
  · simp only [growSize]
    rw [hg1, hk1]
  · rw [← hk1]; exact hg2
  · intro jj h1 h2
    match jj, h1 with
    | i + 1, _ =>
      have := hg3 i (by omega)
      calc s.mapped_size * 2 ^ (i + 1) = s.mapped_size * 2 * 2 ^ i := by
            rw [pow_succ]; ring
        _ < s.current_position + text.length + 1 := this
  · intro i hi
    have h1 : ¬ (s.current_position ≤ i ∧ i < s.current_position + text.length) := by
      omega
    have h2 : ¬ i = s.current_position + text.length := by omega
    simp only [ftruncS, growSize]
    rw [if_neg h1, if_neg h2, if_pos]
    refine ⟨by omega, ?_⟩
    rw [hg1]
    calc i < s.current_position + text.length + 1 := by omega
      _ ≤ s.mapped_size * 2 * 2 ^ j := hg2

theorem c5_writeline_geometric_growth_witness :
    (writeLine ['x', 'y'] wbase).1 = Error.None ∧
    (∃ k, 1 ≤ k ∧
      (writeLine ['x', 'y'] wbase).2.mapped_size = wbase.mapped_size * 2 ^ k ∧
      wbase.current_position + (['x', 'y'] : List Char).length + 1 ≤
        wbase.mapped_size * 2 ^ k ∧
      ∀ j, 1 ≤ j → j < k →
        wbase.mapped_size * 2 ^ j <
          wbase.current_position + (['x', 'y'] : List Char).length + 1) ∧
    (writeLine ['x', 'y'] wbase).2.fileLen = (writeLine ['x', 'y'] wbase).2.mapped_size ∧
    (∀ i, i < wbase.current_position →
      (writeLine ['x', 'y'] wbase).2.fileData i = wbase.fileData i) :=
  c5_writeline_geometric_growth wbase ['x', 'y'] rfl rfl (by decide) (by decide)
    (by decide) rfl (by decide) (by decide)

/-! ## Read-path lemmas shared by claims C1 and C4 -/

lemma sliceFrom_nil (f : Nat → Char) (a b : Nat) (h : b ≤ a) :
    sliceFrom f a b = [] := by
  simp [sliceFrom, Nat.sub_eq_zero_of_le h]

lemma sliceFrom_cons (f : Nat → Char) (a b : Nat) (h : a < b) :
    sliceFrom f a b = f a :: sliceFrom f (a + 1) b := by
  have h1 : b - a = (b - (a + 1)) + 1 := by omega
  simp only [sliceFrom, h1, List.range_succ_eq_map, List.map_cons, List.map_map,
    Nat.add_zero]
  congr 1
  apply List.map_congr_left
  intro x _
  simp only [Function.comp_apply]
  congr 1
  omega

lemma sliceFrom_split_aux (f : Nat → Char) (c : Nat) :
    ∀ (k a b : Nat), a + k = b → b ≤ c →
      sliceFrom f a c = sliceFrom f a b ++ sliceFrom f b c := by
  intro k
  induction k with
  | zero =>
    intro a b hab _
    have : a = b := by omega
    subst this
    rw [sliceFrom_nil f a a (Nat.le_refl a), List.nil_append]
  | succ m ih =>
    intro a b hab hbc
    have ha : a < b := by omega
    have hac : a < c := by omega
    rw [sliceFrom_cons f a c hac, sliceFrom_cons f a b ha,
      ih (a + 1) b (by omega) hbc, List.cons_append]

lemma sliceFrom_split (f : Nat → Char) (a b c : Nat) (hab : a ≤ b) (hbc : b ≤ c) :
    sliceFrom f a c = sliceFrom f a b ++ sliceFrom f b c :=
  sliceFrom_split_aux f c (b - a) a b (by omega) hbc

lemma sliceFrom_mem (f : Nat → Char) (a b : Nat) (c : Char)
    (h : c ∈ sliceFrom f a b) : ∃ i, a ≤ i ∧ i < b ∧ c = f i := by
  simp only [sliceFrom, List.mem_map, List.mem_range] at h
  obtain ⟨k, hk, hc⟩ := h
  exact ⟨a + k, by omega, by omega, hc.symm⟩

lemma scanEndAux_ge (f : Nat → Char) (off m : Nat) :
    ∀ k j, j ≤ scanEndAux f off m k j := by
  intro k
  induction k with
  | zero => intro j; exact Nat.le_refl j
  | succ n ih =>
    intro j
    rw [scanEndAux]
    by_cases h1 : j < m
    · rw [if_pos h1]
      by_cases h2 : f (off + j) = '\n'
      · rw [if_pos h2]
      · rw [if_neg h2]
        exact Nat.le_trans (Nat.le_succ j) (ih (j + 1))
    · rw [if_neg h1]

lemma scanEndAux_le (f : Nat → Char) (off m : Nat) :
    ∀ k j, j ≤ m → scanEndAux f off m k j ≤ m := by
  intro k
  induction k with
  | zero => intro j hj; exact hj
  | succ n ih =>
    intro j hj
    rw [scanEndAux]
    by_cases h1 : j < m
    · rw [if_pos h1]
      by_cases h2 : f (off + j) = '\n'
      · rw [if_pos h2]; exact hj
      · rw [if_neg h2]; exact ih (j + 1) (by omega)
    · rw [if_neg h1]; exact hj

lemma scanEndAux_stop (f : Nat → Char) (off m : Nat) :
    ∀ k j, m ≤ j + k → scanEndAux f off m k j < m →
      f (off + scanEndAux f off m k j) = '\n' := by
  intro k
  induction k with
  | zero =>
    intro j hfuel hlt
    rw [scanEndAux] at hlt
    omega
  | succ n ih =>
    intro j hfuel hlt
    rw [scanEndAux] at hlt ⊢
    by_cases h1 : j < m
    · rw [if_pos h1] at hlt ⊢
      by_cases h2 : f (off + j) = '\n'
      · rw [if_pos h2]; exact h2
      · rw [if_neg h2] at hlt ⊢
        exact ih (j + 1) (by omega) hlt
    · rw [if_neg h1] at hlt
      omega


lemma scanEndAux_no_nl (f : Nat → Char) (off m : Nat) :
    ∀ k j i, j ≤ i → i < scanEndAux f off m k j → ¬ f (off + i) = '\n' := by
  intro k
  induction k with
  | zero =>
    intro j i h1 h2
    rw [scanEndAux] at h2
    omega
  | succ n ih =>
    intro j i h1 h2
    rw [scanEndAux] at h2
    by_cases hj : j < m
    · rw [if_pos hj] at h2
      by_cases hnl : f (off + j) = '\n'
      · rw [if_pos hnl] at h2
        omega
      · rw [if_neg hnl] at h2
        by_cases hij : i = j
        · subst hij; exact hnl
        · exact ih (j + 1) i (by omega) h2
    · rw [if_neg hj] at h2
      omega

lemma scanEnd_ge (s : MMF) (j : Nat) : j ≤ scanEnd s j :=
  scanEndAux_ge s.fileData s.off s.mapped_size (s.mapped_size - j) j

lemma scanEnd_le (s : MMF) (j : Nat) (hj : j ≤ s.mapped_size) :
    scanEnd s j ≤ s.mapped_size :=
  scanEndAux_le s.fileData s.off s.mapped_size (s.mapped_size - j) j hj

lemma scanEnd_stop (s : MMF) (j : Nat) (h : scanEnd s j < s.mapped_size) :
    s.fileData (s.off + scanEnd s j) = '\n' :=
  scanEndAux_stop s.fileData s.off s.mapped_size (s.mapped_size - j) j (by omega) h

lemma scanEnd_no_nl (s : MMF) (j i : Nat) (h1 : j ≤ i) (h2 : i < scanEnd s j) :
    ¬ s.fileData (s.off + i) = '\n' :=
  scanEndAux_no_nl s.fileData s.off s.mapped_size (s.mapped_size - j) j i h1 h2

lemma scanEnd_gt (s : MMF) (j : Nat) (hj : j < s.mapped_size)
    (hnl : ¬ s.fileData (s.off + j) = '\n') : j < scanEnd s j := by
  rw [scanEnd]
  have hk : s.mapped_size - j = (s.mapped_size - (j + 1)) + 1 := by omega
  rw [hk, scanEndAux, if_pos hj, if_neg hnl]
  exact Nat.lt_of_lt_of_le (Nat.lt_succ_self j)
    (scanEndAux_ge s.fileData s.off s.mapped_size _ (j + 1))

/-- One successful scan step: with the cursor strictly inside the live
mapping, `ReadLine`'s bounds processing returns a line, advances the
position within the mapping, and the '\n'-filtered remainder of the file
decomposes as that line followed by the filtered remainder from the new
position. -/
lemma lineFromBounds_scan (t : MMF)
    (hpos : t.current_position < t.mapped_size)
    (hwin : t.off + t.mapped_size ≤ t.file_size) :
    ∃ l p2, lineFromBounds (scanBounds t) =
        (some l, { t with current_position := p2, last_error := Error.None }) ∧
      t.current_position < p2 ∧ p2 ≤ t.mapped_size ∧
      (sliceFrom t.fileData (t.off + t.current_position) t.file_size).filter
          (fun c => c != '\n') =
        l ++ (sliceFrom t.fileData (t.off + p2) t.file_size).filter
          (fun c => c != '\n') := by
  by_cases hnl : t.fileData (t.off + t.current_position) = '\n'
  · -- empty line at the cursor
    refine ⟨[], t.current_position + 1, ?_, Nat.lt_succ_self _, by omega, ?_⟩
    · rw [scanBounds, if_pos ⟨hpos, hnl⟩, lineFromBounds]
      simp
    · have hlt : t.off + t.current_position < t.file_size := by omega
      rw [sliceFrom_cons _ _ _ hlt, List.filter_cons, hnl]
      have harith : t.off + (t.current_position + 1) =
          (t.off + t.current_position) + 1 := by omega
      rw [harith]
      simp
  · -- scan forward to the terminator or the window end
    have he_gt := scanEnd_gt t t.current_position hpos hnl
    have he_le := scanEnd_le t t.current_position (by omega)
    have hne : ¬ t.current_position = scanEnd t t.current_position := by omega
    have hb1 : lineFromBounds (scanBounds t) =
        (some (sliceFrom t.fileData (t.off + t.current_position)
            (t.off + scanEnd t t.current_position)),
          { t with
            current_position :=
              if scanEnd t t.current_position < t.mapped_size ∧
                  t.fileData (t.off + scanEnd t t.current_position) = '\n'
              then scanEnd t t.current_position + 1
              else scanEnd t t.current_position
            last_error := Error.None }) := by
      rw [scanBounds, if_neg (fun h => hnl h.2), lineFromBounds]
      rw [if_neg (by simp; omega), if_neg hne]
    have hsplit := sliceFrom_split t.fileData (t.off + t.current_position)
      (t.off + scanEnd t t.current_position) t.file_size (by omega) (by omega)
    have hline : (sliceFrom t.fileData (t.off + t.current_position)
        (t.off + scanEnd t t.current_position)).filter (fun c => c != '\n') =
        sliceFrom t.fileData (t.off + t.current_position)
          (t.off + scanEnd t t.current_position) := by
      apply List.filter_eq_self.mpr
      intro c hc
      obtain ⟨i, hi1, hi2, hi3⟩ := sliceFrom_mem _ _ _ _ hc
      have hi4 : i = t.off + (i - t.off) := by omega
      have := scanEnd_no_nl t t.current_position (i - t.off) (by omega) (by omega)
      subst hi3
      rw [hi4]
      simpa using this
    by_cases hterm : scanEnd t t.current_position < t.mapped_size ∧
        t.fileData (t.off + scanEnd t t.current_position) = '\n'
    · -- terminator found inside the window: consume it
      refine ⟨sliceFrom t.fileData (t.off + t.current_position)
        (t.off + scanEnd t t.current_position),
        scanEnd t t.current_position + 1, ?_, by omega, by omega, ?_⟩
      · rw [hb1, if_pos hterm]
      · have hblt : t.off + scanEnd t t.current_position < t.file_size := by omega
        rw [hsplit, List.filter_append, hline,
          sliceFrom_cons _ _ _ hblt, List.filter_cons, hterm.2]
        have harith : t.off + (scanEnd t t.current_position + 1) =
            (t.off + scanEnd t t.current_position) + 1 := by omega
        rw [harith]
        simp
    · -- no terminator in the window: the fragment ends at the window edge
      refine ⟨sliceFrom t.fileData (t.off + t.current_position)
        (t.off + scanEnd t t.current_position),
        scanEnd t t.current_position, ?_, by omega, by omega, ?_⟩
      · rw [hb1, if_neg hterm]
      · rw [hsplit, List.filter_append, hline]

/-- The remap step preserves the absolute cursor position (no byte is
skipped or re-read), keeps the invariant, and leaves the cursor strictly
inside the (nonempty) new window. -/
lemma remapState_facts (s : MMF) (hInv : InvR s)
    (hmore : s.off + s.mapped_size < s.file_size) :
    InvR (remapState s) ∧
    (remapState s).current_position < (remapState s).mapped_size ∧
    (remapState s).off + (remapState s).current_position =
      s.off + s.mapped_size ∧
    (remapState s).fileData = s.fileData ∧
    (remapState s).file_size = s.file_size := by
  obtain ⟨hv, hptr, hpm, hwin, hms⟩ := hInv
  have hdiv : (s.off + s.mapped_size) / s.page_size * s.page_size ≤
      s.off + s.mapped_size := Nat.div_mul_le_self _ _
  have hmin1 : 1 ≤ min s.mapped_size (s.file_size - (s.off + s.mapped_size)) := by
    omega
  have hminle : min s.mapped_size (s.file_size - (s.off + s.mapped_size)) ≤
      s.file_size - (s.off + s.mapped_size) := Nat.min_le_right _ _
  refine ⟨⟨hv, rfl, ?_, ?_, ?_⟩, ?_, ?_, rfl, rfl⟩ <;>
    simp only [remapState] <;> omega

/-- A `ReadLine(true)` below end-of-file succeeds, strictly advances the
absolute position, preserves the invariant and the backing file, and
peels its line off the '\n'-filtered remainder of the file. -/
lemma readLine_success (s : MMF) (hInv : InvR s)
    (hlt : s.off + s.current_position < s.file_size) :
    ∃ l s', readLine true s = (some l, s') ∧ InvR s' ∧
      s'.fileData = s.fileData ∧ s'.file_size = s.file_size ∧
      s.off + s.current_position < s'.off + s'.current_position ∧
      (sliceFrom s.fileData (s.off + s.current_position) s.file_size).filter
          (fun c => c != '\n') =
        l ++ (sliceFrom s.fileData (s'.off + s'.current_position)
          s.file_size).filter (fun c => c != '\n') := by
  obtain ⟨hv, hptr, hpm, hwin, hms⟩ := hInv
  have hnotnull : ¬ (s.is_valid = false ∨ s.ptr = Ptr.nullp) := by
    simp [hv, hptr]
  by_cases hp : s.current_position < s.mapped_size
  · -- still inside the window: plain scan
    obtain ⟨l, p2, heq, hadv, hple, hdec⟩ := lineFromBounds_scan s hp hwin
    refine ⟨l, { s with current_position := p2, last_error := Error.None },
      ?_, ⟨hv, hptr, hple, hwin, hms⟩, rfl, rfl, ?_, ?_⟩
    · rw [readLine, getNextLineBounds, if_neg hnotnull, if_neg (by omega), heq]
    · show s.off + s.current_position < s.off + p2
      omega
    · show _ = l ++ (sliceFrom s.fileData (s.off + p2) s.file_size).filter
        (fun c => c != '\n')
      exact hdec
  · -- window exhausted: remap, then scan in the new window
    have hpm' : s.current_position = s.mapped_size := by omega
    have hmore : s.off + s.mapped_size < s.file_size := by omega
    obtain ⟨hInv2, hp2, habs, hfd2, hfs2⟩ :=
      remapState_facts s ⟨hv, hptr, hpm, hwin, hms⟩ hmore
    obtain ⟨l, p2, heq, hadv, hple, hdec⟩ :=
      lineFromBounds_scan (remapState s) hp2 hInv2.2.2.2.1
    rw [hfd2, hfs2, habs] at hdec
    refine ⟨l,
      { remapState s with
        current_position := p2
        last_error := Error.None },
      ?_, ⟨hInv2.1, hInv2.2.1, hple, hInv2.2.2.2.1, hInv2.2.2.2.2⟩,
      hfd2, hfs2, ?_, ?_⟩
    · rw [readLine, getNextLineBounds, if_neg hnotnull, if_pos (by omega),
        if_pos ⟨rfl, hmore⟩, heq]
    · show s.off + s.current_position < (remapState s).off + p2
      omega
    · show _ = l ++ (sliceFrom s.fileData ((remapState s).off + p2)
        s.file_size).filter (fun c => c != '\n')
      rw [hpm']
      exact hdec

/-- A `ReadLine(true)` at or past end-of-file fails with `EndOfFile`. -/
lemma readLine_eof (s : MMF) (hInv : InvR s)
    (heof : s.file_size ≤ s.off + s.current_position) :
    readLine true s = (none, { s with last_error := Error.EndOfFile }) := by
  obtain ⟨hv, hptr, hpm, hwin, hms⟩ := hInv
  rw [readLine, getNextLineBounds, if_neg (by simp [hv, hptr]),
    if_pos (by omega), if_neg (by rintro ⟨-, hc⟩; omega), lineFromBounds]

/-- Reading everything with `allowRemap = true` from any valid read state
recovers, in order, exactly the non-terminator bytes of the file from the
current absolute position onward (terminators are consumed, lines may be
fragmented at window boundaries, but no byte is skipped, duplicated or
reordered). -/
lemma readAllS_join (fuel : Nat) :
    ∀ s : MMF, InvR s →
      s.file_size - (s.off + s.current_position) < fuel →
      ((readAllS true fuel s).1).flatten =
        (sliceFrom s.fileData (s.off + s.current_position) s.file_size).filter
          (fun c => c != '\n') := by
  induction fuel with
  | zero => intro s _ hf; exact absurd hf (Nat.not_lt_zero _)
  | succ n ih =>
    intro s hInv hf
    by_cases hlt : s.off + s.current_position < s.file_size
    · obtain ⟨l, s', hrl, hInv', hfd, hfs, hadv, hdec⟩ :=
        readLine_success s hInv hlt
      rw [readAllS, hrl]
      rw [List.flatten_cons]
      have hih := ih s' hInv' (by omega)
      rw [hfd, hfs] at hih
      rw [hih]
      exact hdec.symm
    · have heof := Nat.le_of_not_lt hlt
      rw [readAllS, readLine_eof s hInv heof]
      rw [sliceFrom_nil _ _ _ heof]
      simp

/-- The chunked open at offset 0 with window `W ≥ 1` on a nonempty file. -/
lemma mmfOpenPart_zero (len W ps : Nat) (f : Nat → Char)
    (hW : 1 ≤ W) (hlen : 1 ≤ len) :
    mmfOpenPart len f 0 W OpenMode.ReadOnly ps =
      { fileLen := len, fileData := f, ptr := Ptr.real, file_size := len,
        mapped_size := min W len, current_position := 0, off := 0,
        is_valid := true, last_error := Error.None, mode := OpenMode.ReadOnly,
        page_size := ps } := by
  rw [mmfOpenPart, if_neg (by omega)]
  simp only [Nat.zero_div, Nat.zero_mul, Nat.sub_zero, Nat.zero_sub, Nat.zero_add]
  rw [if_pos (by omega)]

/-- The full open of a nonempty file. -/
lemma mmfOpenFull_pos (len ps : Nat) (f : Nat → Char) (mode : OpenMode)
    (hlen : 1 ≤ len) :
    mmfOpenFull len f mode ps =
      { fileLen := len, fileData := f, ptr := Ptr.real, file_size := len,
        mapped_size := len, current_position := 0, off := 0,
        is_valid := true, last_error := Error.None, mode := mode,
        page_size := ps } := by
  rw [mmfOpenFull, if_neg (by omega)]

/-! ## Claim C1: chunked reads versus a full-file mapping -/

/-- C1 counterexample: on the 3-byte file `"AB\n"` with window `W = 1`
(page size 4096), chunked `ReadLine(true)` returns the fragments
`"A"`, `"B"`, `""` while the full-file mapping returns the single line
`"AB"` — the line straddling the window boundary is returned as two
fragments, not stitched. -/
theorem c1_chunked_vs_full_cex :
    (readAllS true 5 (mmfOpenPart 3 exF 0 1 OpenMode.ReadOnly 4096)).1 ≠
    (readAllS true 5 (mmfOpenFull 3 exF OpenMode.ReadOnly 4096)).1 := by
  decide

/-- C1 amended: for every file, window size `W ≥ 1` and page size,
chunked reads with `allowRemap = true` yield the same ordered byte
content as the single full-file mapping — the concatenation of the
returned lines coincides (no byte is lost, duplicated or reordered, and
empty lines at boundaries are handled) — but a line straddling a window
boundary is returned as two fragments rather than stitched, so the line
sequences themselves differ in general. -/
theorem c1_chunked_read_amended (len W ps fuel : Nat) (f : Nat → Char)
    (hW : 1 ≤ W) (hlen : 1 ≤ len) (hfuel : len < fuel) :
    ((readAllS true fuel (mmfOpenPart len f 0 W OpenMode.ReadOnly ps)).1).flatten =
    ((readAllS true fuel (mmfOpenFull len f OpenMode.ReadOnly ps)).1).flatten := by
  rw [mmfOpenPart_zero len W ps f hW hlen, mmfOpenFull_pos len ps f _ hlen]
  rw [readAllS_join fuel _ ⟨rfl, rfl, by simp, by simp, by simp; omega⟩
      (by simpa using hfuel),
    readAllS_join fuel _ ⟨rfl, rfl, by simp, by simp, by simpa using hlen⟩
      (by simpa using hfuel)]

theorem c1_chunked_read_amended_witness :
    ((readAllS true 5 (mmfOpenPart 3 exF 0 1 OpenMode.ReadOnly 4096)).1).flatten =
    ((readAllS true 5 (mmfOpenFull 3 exF OpenMode.ReadOnly 4096)).1).flatten :=
  c1_chunked_read_amended 3 1 4096 5 exF (by decide) (by decide) (by decide)

/-! ## Claim C4: `Reset` and replaying the read sequence -/

/-- C4 counterexample: on the 3-byte file `"AB\n"` opened with window
`W = 1` (page size 4096), the first full read sequence with
`allowRemap = true` returns `"A"`, `"B"`, `""` and leaves the grown
mapping in place; after `Reset()` the replay returns the single line
`"AB"` — not the same ordered list. -/
theorem c4_reset_replay_cex :
    (readAllS true 5 ((resetM ((readAllS true 5
        (mmfOpenPart 3 exF 0 1 OpenMode.ReadOnly 4096)).2)).2)).1 ≠
    (readAllS true 5 (mmfOpenPart 3 exF 0 1 OpenMode.ReadOnly 4096)).1 := by
  decide

/-- When the current window already reaches end-of-file, `ReadLine`
never remaps: only `current_position_` and `last_error_` change. -/
lemma readLine_fields_no_remap (ext : Bool) (s : MMF)
    (h4 : s.file_size ≤ s.off + s.mapped_size) :
    ∃ p e, (readLine ext s).2 =
      { s with current_position := p, last_error := e } := by
  rw [readLine, getNextLineBounds]
  by_cases h1 : s.is_valid = false ∨ s.ptr = Ptr.nullp
  · rw [if_pos h1]
    exact ⟨s.current_position, Error.NotMapped, rfl⟩
  · rw [if_neg h1]
    by_cases h2 : s.mapped_size ≤ s.current_position
    · rw [if_pos h2, if_neg (by rintro ⟨-, hc⟩; omega)]
      exact ⟨s.current_position, Error.EndOfFile, rfl⟩
    · rw [if_neg h2, scanBounds]
      by_cases h3 : s.current_position < s.mapped_size ∧
          s.fileData (s.off + s.current_position) = '\n'
      · rw [if_pos h3, lineFromBounds]
        refine ⟨s.current_position + 1, Error.None, ?_⟩
        rw [if_neg (by omega), if_pos rfl]
      · rw [if_neg h3, lineFromBounds]
        by_cases h5 : s.current_position = scanEnd s s.current_position
        · refine ⟨scanEnd s s.current_position + 1, Error.None, ?_⟩
          rw [if_neg (by omega), if_pos h5]
        · have hge := scanEnd_ge s s.current_position
          refine ⟨if scanEnd s s.current_position < s.mapped_size ∧
              s.fileData (s.off + scanEnd s s.current_position) = '\n'
            then scanEnd s s.current_position + 1
            else scanEnd s s.current_position, Error.None, ?_⟩
          rw [if_neg (by omega), if_neg h5]

/-- Reading any number of lines from a window that reaches end-of-file
changes only `current_position_` and `last_error_`. -/
lemma readAllS_fields_no_remap (ext : Bool) (fuel : Nat) :
    ∀ s : MMF, s.file_size ≤ s.off + s.mapped_size →
      ∃ p e, (readAllS ext fuel s).2 =
        { s with current_position := p, last_error := e } := by
  induction fuel with
  | zero =>
    intro s _
    exact ⟨s.current_position, s.last_error, rfl⟩
  | succ n ih =>
    intro s h4
    obtain ⟨p, e, hfield⟩ := readLine_fields_no_remap ext s h4
    rcases hr : readLine ext s with ⟨lo, s1⟩
    rw [hr] at hfield
    simp only at hfield
    have hs1 : s1 = { s with current_position := p, last_error := e } := hfield
    cases lo with
    | none =>
      refine ⟨p, e, ?_⟩
      rw [readAllS, hr]
      exact hs1
    | some l =>
      obtain ⟨p', e', hrest⟩ := ih s1 (by rw [hs1]; simpa using h4)
      refine ⟨p', e', ?_⟩
      rw [readAllS, hr]
      simp only
      rw [hrest, hs1]

/-- C4 amended: `Reset()` returns the position to the start of the
*current* mapping, so a full read/`Reset` cycle restores the initial
state — and hence replays the identical ordered line list, for any
number of cycles — whenever the window already covers the rest of the
file (in particular for a full-file mapping, where no remap can occur).
When `allowRemap = true` actually remapped the window, the replay reads
from the relocated, resized window and differs in general. -/
theorem c4_reset_replay_amended (s : MMF) (fuel : Nat) (ext : Bool)
    (hv : s.is_valid = true) (hp : s.current_position = 0)
    (he : s.last_error = Error.None)
    (h4 : s.file_size ≤ s.off + s.mapped_size) :
    (resetM ((readAllS ext fuel s).2)).2 = s ∧
    ∀ n, (readAllS ext fuel
        ((fun t => (resetM ((readAllS ext fuel t).2)).2)^[n] s)).1 =
      (readAllS ext fuel s).1 := by
  have hstate : (resetM ((readAllS ext fuel s).2)).2 = s := by
    obtain ⟨p, e, hf⟩ := readAllS_fields_no_remap ext fuel s h4
    rw [hf, resetM, if_neg (by simp [hv])]
    show ({ s with current_position := 0, last_error := Error.None } : MMF) = s
    rw [← hp, ← he]
  refine ⟨hstate, fun n => ?_⟩
  rw [Function.iterate_fixed hstate n]

theorem c4_reset_replay_amended_witness :
    (resetM ((readAllS true 5 (mmfOpenFull 3 exF OpenMode.ReadOnly 4096)).2)).2 =
      mmfOpenFull 3 exF OpenMode.ReadOnly 4096 ∧
    ∀ n, (readAllS true 5
        ((fun t => (resetM ((readAllS true 5 t).2)).2)^[n]
          (mmfOpenFull 3 exF OpenMode.ReadOnly 4096))).1 =
      (readAllS true 5 (mmfOpenFull 3 exF OpenMode.ReadOnly 4096)).1 :=
  c4_reset_replay_amended (mmfOpenFull 3 exF OpenMode.ReadOnly 4096) 5 true
    rfl rfl rfl (by decide)

end MktAgg
